import Mathlib

/-!
Shallow embedding of the FOMO detection head core
(`edgelab/models/heads/fomo_head.py`): target building (`build_target`),
the weighted loss (`lossFunction`), the tolerant metric computation
(`get_pricsion_recall_f1`), and the constructor's attribute behaviour.

Tensors of shape (B, H, W, C) are modelled as total functions from an integer
index triple (batch, row, col) to a channel-indexed value; only the cells
inside the (B, H, W) bounds are ever enumerated by the pipeline.  Logit
values are rationals (cast to the reals where the code applies softmax,
log-sigmoid, or cross-entropy).
-/

namespace Fomo

/-- Index triple (batch, row, col), over the integers so that neighbor
offsets can produce negative coordinates. -/
abbrev Idx3 := ℤ × ℤ × ℤ

/-- A dense per-cell grid of values of type α. -/
abbrev Grid (α : Type) := Idx3 → α

/-- A dense (B,H,W,C)-shaped value tensor: cell index and channel to value. -/
abbrev VGrid := Idx3 → ℕ → ℚ

/-- A ground-truth record, one row of the label tensor:
(batch index, class id, x center fraction, y center fraction). -/
structure Ann where
  b : ℤ
  cls : ℤ
  x : ℚ
  y : ℚ

/-- Python `int()` conversion applied to a rational: truncation toward zero. -/
def truncQ (q : ℚ) : ℤ := if 0 ≤ q then ⌊q⌋ else -⌊-q⌋

/-- PyTorch index normalization for one dimension of size `n`: an index in
`[0, n)` is used as is, an index in `[-n, 0)` wraps by adding `n`, and any
other index is an index error (`none`). -/
def torchIdx (n : ℕ) (i : ℤ) : Option ℤ :=
  if 0 ≤ i ∧ i < (n : ℤ) then some i
  else if -(n : ℤ) ≤ i ∧ i < 0 then some (i + n) else none

/-- The grid `torch.zeros(B, H, W, C)` after `target_data[..., 0] = 1`:
background one-hot everywhere. -/
def initTarget : VGrid := fun _ k => if k = 0 then 1 else 0

/-- One iteration of the loop in `build_target` (fomo_head.py lines 170-173):
compute `h = int(y * H)`, `w = int(x * W)`, then set channel 0 to 0 and
channel `int(cls)` to 1 at cell `(int(b), h, w)`.  Index normalization
follows PyTorch; a failed index is an error that aborts the build. -/
def applyAnn (B H W C : ℕ) (g : VGrid) (a : Ann) : Option VGrid :=
  match torchIdx B a.b, torchIdx H (truncQ (a.y * (H : ℚ))),
        torchIdx W (truncQ (a.x * (W : ℚ))), torchIdx C a.cls with
  | some b', some h', some w', some c' =>
      some (fun c k =>
        if c = (b', h', w') then
          (if (k : ℤ) = c' then 1 else if k = 0 then 0 else g c k)
        else g c k)
  | _, _, _, _ => none

/-- `build_target` (fomo_head.py lines 165-175): start from the
all-background grid and apply the annotations in input order. -/
def build_target (B H W C : ℕ) (targets : List Ann) : Option VGrid :=
  targets.foldlM (applyAnn B H W C) initTarget

/-- `torch.argmax` along the channel axis: index of the first maximal value
among channels `0, …, C-1` (0 for an empty channel range). -/
def argmaxIdx {α : Type} [LinearOrder α] (C : ℕ) (v : ℕ → α) : ℕ :=
  (List.range C).foldl (fun best i => if v best < v i then i else best) 0

/-- `torch.softmax` along the channel axis. -/
noncomputable def softmax (C : ℕ) (v : ℕ → ℝ) : ℕ → ℝ :=
  fun i => Real.exp (v i) / ∑ j in Finset.range C, Real.exp (v j)

/-- `target_max = torch.argmax(target, dim=-1)`. -/
def targetMaxQ (C : ℕ) (target : VGrid) : Grid ℕ := fun c => argmaxIdx C (target c)

/-- The per-cell argmax of the raw logits, with no softmax applied
(comparison point for the refinement claim about the softmax step). -/
def predsMaxQ (C : ℕ) (preds : VGrid) : Grid ℕ := fun c => argmaxIdx C (preds c)

/-- `preds_max = torch.argmax(torch.softmax(preds, dim=-1), dim=-1)`
(fomo_head.py lines 122-125). -/
noncomputable def predsMax (C : ℕ) (preds : VGrid) : Grid ℕ :=
  fun c => argmaxIdx C (softmax C (fun k => ((preds c k : ℚ) : ℝ)))

/-- All in-bounds cells of a (B,H,W) grid in row-major order, the order in
which `torch.where` reports nonzero positions. -/
def cellsRC (B H W : ℕ) : List Idx3 :=
  (List.range B).flatMap fun b =>
    (List.range H).flatMap fun h =>
      (List.range W).map fun w => ((b : ℤ), (h : ℤ), (w : ℤ))

/-- `torch.stack(torch.where(g > 0), dim=1)`: the in-bounds cells holding a
non-background class index, in row-major order. -/
def whereVals (B H W : ℕ) (g : Grid ℕ) : List Idx3 :=
  (cellsRC B H W).filter fun c => decide (0 < g c)

/-- `self.posit_offset` (fomo_head.py lines 50-53), in source order. -/
def posit_offset : List Idx3 :=
  [(0, -1, 0), (0, -1, -1), (0, 0, -1), (0, 1, 0), (0, 1, 1),
   (0, 0, 1), (0, 1, -1), (0, -1, 1), (0, 0, 0)]

/-- The loop's guard `torch.any(site < 0) or torch.any(site > 11)`
(fomo_head.py line 139): note the hard-coded upper bound 11. -/
def skipSite (s : Idx3) : Bool :=
  decide (s.1 < 0) || decide (s.2.1 < 0) || decide (s.2.2 < 0) ||
  decide (11 < s.1) || decide (11 < s.2.1) || decide (11 < s.2.2)

/-- `site in preds_index` under `torch.Tensor.__contains__` semantics:
`(site == preds_index).any()` broadcasts the 3-vector against the (N,3)
index tensor, so it is true when ANY single coordinate of `site` matches
the same coordinate of ANY row. -/
def siteInIndex (s : Idx3) (idx : List Idx3) : Bool :=
  idx.any fun r => decide (s.1 = r.1) || decide (s.2.1 = r.2.1) || decide (s.2.2 = r.2.2)

/-- In-place single-cell tensor write. -/
def updateG (g : Grid ℕ) (s : Idx3) (v : ℕ) : Grid ℕ :=
  fun c => if c = s then v else g c

/-- One iteration of the tolerant-matching inner loop (fomo_head.py lines
136-145), acting on the current `(target_max, preds_max)` state:
skip the site when the guard fires; otherwise, when the site is "in" the
predicted index list and the predicted class there equals the target class
at `ti`, overwrite both grids at `site` with the target class at `ti`. -/
def matchStep (pidx : List Idx3) (st : Grid ℕ × Grid ℕ) (ti po : Idx3) :
    Grid ℕ × Grid ℕ :=
  let site := ti + po
  if skipSite site then st
  else if siteInIndex site pidx ∧ st.2 site = st.1 ti then
    (updateG st.1 site (st.1 ti), updateG st.2 site (st.1 ti))
  else st

/-- The full tolerant-matching pass (fomo_head.py lines 135-145): the true
cells and the predicted-cell index list are computed once, from the grids
as given; the state is mutated in place across the ordered double loop. -/
def matchPass (B H W : ℕ) (tmax pmax : Grid ℕ) : Grid ℕ × Grid ℕ :=
  let tidx := whereVals B H W tmax
  let pidx := whereVals B H W pmax
  tidx.foldl
    (fun st ti => posit_offset.foldl (fun st' po => matchStep pidx st' ti po) st)
    (tmax, pmax)

/-- The (i,j) entry of `sklearn.metrics.confusion_matrix(target, preds,
labels=range(C))`: the number of in-bounds cells whose target class is `i`
and predicted class is `j`. -/
def confusion (B H W : ℕ) (t p : Grid ℕ) (i j : ℕ) : ℕ :=
  (cellsRC B H W).countP fun c => decide (t c = i) && decide (p c = j)

/-- The four counts read off the confusion matrix (fomo_head.py lines
151-154): tn = confusion[0,0], tp = trace - tn, fn = strict lower
triangle sum, fp = strict upper triangle sum. -/
structure Counts where
  tn : ℕ
  tp : ℕ
  fn : ℕ
  fp : ℕ
deriving DecidableEq

/-- Derive the counts from the confusion matrix of the matched grids. -/
def countsOf (C B H W : ℕ) (tmax pmax : Grid ℕ) : Counts :=
  let mp := matchPass B H W tmax pmax
  let conf := fun i j => confusion B H W mp.1 mp.2 i j
  let tn := conf 0 0
  let tp := (∑ i in Finset.range C, conf i i) - tn
  let fn := ∑ i in Finset.range C, ∑ j in Finset.range C, if j < i then conf i j else 0
  let fp := ∑ i in Finset.range C, ∑ j in Finset.range C, if i < j then conf i j else 0
  ⟨tn, tp, fn, fp⟩

/-- The final P/R/F1 computation with its zero-denominator guards
(fomo_head.py lines 156-163). -/
def prf1OfCounts (c : Counts) : ℚ × ℚ × ℚ :=
  if c.tp + c.fp = 0 ∨ c.tp + c.fn = 0 then (0, 0, 0)
  else
    let p : ℚ := (c.tp : ℚ) / ((c.tp : ℚ) + (c.fp : ℚ))
    let r : ℚ := (c.tp : ℚ) / ((c.tp : ℚ) + (c.fn : ℚ))
    (p, r, if p + r = 0 then 0 else 2 * (p * r) / (p + r))

/-- The counts as computed inside `get_pricsion_recall_f1`, from the raw
prediction tensor (softmax then argmax) and the target grid (argmax). -/
noncomputable def prfCounts (C B H W : ℕ) (preds target : VGrid) : Counts :=
  countsOf C B H W (targetMaxQ C target) (predsMax C preds)

/-- `get_pricsion_recall_f1` (fomo_head.py lines 121-163). -/
noncomputable def get_pricsion_recall_f1 (C B H W : ℕ) (preds target : VGrid) :
    ℚ × ℚ × ℚ :=
  prf1OfCounts (prfCounts C B H W preds target)

/-- The same metric computation with the softmax normalization step removed
(argmax taken directly on the raw logits); the refinement claim compares
this against `get_pricsion_recall_f1`. -/
def prf1NoSoftmax (C B H W : ℕ) (preds target : VGrid) : ℚ × ℚ × ℚ :=
  prf1OfCounts (countsOf C B H W (targetMaxQ C target) (predsMaxQ C preds))

/-- The logistic sigmoid. -/
noncomputable def sigmoid (x : ℝ) : ℝ := 1 / (1 + Real.exp (-x))

/-- Element-wise `BCEWithLogitsLoss` with positive-class weight `posW`
(PyTorch: `-(posW * y * log σ(x) + (1 - y) * log(1 - σ(x)))`). -/
noncomputable def bceWithLogits (posW x y : ℝ) : ℝ :=
  -(posW * y * Real.log (sigmoid x) + (1 - y) * Real.log (1 - sigmoid x))

/-- `torch.mean` over all B·H·W·C elements of a (B,H,W,C) tensor. -/
noncomputable def tensorMean (B H W C : ℕ) (f : Idx3 → ℕ → ℝ) : ℝ :=
  (((cellsRC B H W).map fun c => ∑ k in Finset.range C, f c k).sum) /
    ((B * H * W * C : ℕ) : ℝ)

/-- The dictionary returned by `lossFunction`. -/
structure LossResult where
  loss : ℝ
  fgnd : Idx3 → ℕ → ℝ
  bgnd : Idx3 → ℕ → ℝ
  P : ℚ
  R : ℚ
  F1 : ℚ

/-- `lossFunction` (fomo_head.py lines 88-119): build the target grid,
compute the background branch (no positive-class weight, masked to channel
0) and the foreground branch (positive-class weight `cls_weight`, masked to
the complement), average their sum over every element, and attach the
metric triple.  The weight mask `tile(weight, (H, W, 1))` depends only on
the channel. -/
noncomputable def lossFunction (cls_weight : ℚ) (C B H W : ℕ)
    (preds : VGrid) (targets : List Ann) : Option LossResult :=
  (build_target B H W C targets).map fun data =>
    let mask : ℕ → ℝ := fun k => if k = 0 then 1 else 0
    let bg : Idx3 → ℕ → ℝ := fun c k =>
      bceWithLogits 1 ((preds c k : ℚ) : ℝ) ((data c k : ℚ) : ℝ) * mask k
    let cls : Idx3 → ℕ → ℝ := fun c k =>
      bceWithLogits (cls_weight : ℝ) ((preds c k : ℚ) : ℝ) ((data c k : ℚ) : ℝ) *
        (1 - mask k)
    let L := tensorMean B H W C (fun c k => cls c k + bg c k)
    let m := prf1OfCounts (countsOf C B H W (targetMaxQ C data) (predsMax C preds))
    ⟨L, cls, bg, m.1, m.2.1, m.2.2⟩

/-- A Python runtime error surfaced by the constructor. -/
inductive PyErr
  | attributeErr (name : String)
deriving DecidableEq

/-- Python truthiness of the `loss_weight` argument: `None` and `[]` are
falsy, a non-empty sequence is truthy. -/
def pyTruthy : Option (List ℤ) → Bool
  | some (_ :: _) => true
  | _ => false

/-- The instance attributes assigned before the `loss_weight` branch runs
(fomo_head.py lines 37-39). -/
def initAttrs : List String := ["num_classes", "input_channels", "output_channels"]

/-- The attributes assigned after the `loss_weight` branch: the two loss
modules, the offset table, and the layers built by `_init_layers`. -/
def fomoInitTail (env : List String) : List String :=
  "convs_pred" :: "convs_bridge" :: "posit_offset" :: "loss_bg" :: "loss_cls" :: env

/-- `FomoHead.__init__` attribute behaviour (fomo_head.py lines 36-54): when
`loss_weight` is truthy, line 43 reads `self.weight_cls`, an attribute that
no prior line (and no other line of the class) has defined, so attribute
lookup fails before `self.loss_cls` is ever assigned; otherwise the branch
is skipped and construction completes. -/
def fomoHeadInit (loss_weight : Option (List ℤ)) : Except PyErr (List String) :=
  match loss_weight with
  | some (_ :: _) =>
      if "weight_cls" ∈ initAttrs then Except.ok (fomoInitTail ("weight_cls" :: initAttrs))
      else Except.error (PyErr.attributeErr "weight_cls")
  | _ => Except.ok (fomoInitTail initAttrs)

/-- The cell an annotation is assigned to:
(batch index, int(y·H), int(x·W)). -/
def cellOf (H W : ℕ) (a : Ann) : Idx3 :=
  (a.b, truncQ (a.y * (H : ℚ)), truncQ (a.x * (W : ℚ)))

/-- Some annotation of the list lands on cell `c`. -/
def hitsCell (H W : ℕ) (anns : List Ann) (c : Idx3) : Prop :=
  ∃ a ∈ anns, cellOf H W a = c

/-- Some annotation of the list lands on cell `c` with class id `k`. -/
def hasCls (H W : ℕ) (anns : List Ann) (c : Idx3) (k : ℕ) : Prop :=
  ∃ a ∈ anns, cellOf H W a = c ∧ a.cls = (k : ℤ)

instance (H W : ℕ) (anns : List Ann) (c : Idx3) : Decidable (hitsCell H W anns c) :=
  List.decidableBEx _ anns

instance (H W : ℕ) (anns : List Ann) (c : Idx3) (k : ℕ) : Decidable (hasCls H W anns c k) :=
  List.decidableBEx _ anns

/-- Closed form of the grid `build_target` produces on in-range input:
channel `k` is 1 when some annotation lands on the cell with class `k`;
channel 0 is 1 exactly on the cells no annotation lands on; everything
else is 0. -/
def targetChar (H W : ℕ) (anns : List Ann) : VGrid :=
  fun c k =>
    if hasCls H W anns c k then 1
    else if k = 0 then (if hitsCell H W anns c then 0 else 1)
    else 0

/-- A channel vector is one-hot over `C` channels: exactly one channel
equals 1 and every other channel equals 0. -/
def isOneHot (C : ℕ) (v : ℕ → ℚ) : Prop :=
  ∃ k ∈ Finset.range C, v k = 1 ∧ ∀ j ∈ Finset.range C, j ≠ k → v j = 0

/-- Modelled from the spec: the valid (batch, height, width) bounds predicate
("if site falls outside the valid (batch, height, width) bounds, skip it");
the code has no definition of the actual bounds, only the hard-coded guard
`skipSite`. -/
def inBoundsSpec (B H W : ℕ) (s : Idx3) : Bool :=
  decide (0 ≤ s.1 ∧ s.1 < (B : ℤ) ∧ 0 ≤ s.2.1 ∧ s.2.1 < (H : ℤ) ∧
          0 ≤ s.2.2 ∧ s.2.2 < (W : ℤ))

/-- Concrete target grid for the neighbor-tolerance scenario: one true
object cell at (0,5,5) with class 3, background elsewhere (channels C = 4). -/
def targetC6 : VGrid := fun c k =>
  if c = ((0 : ℤ), (5 : ℤ), (5 : ℤ)) then (if k = 3 then 1 else 0)
  else (if k = 0 then 1 else 0)

/-- Concrete prediction map for the neighbor-tolerance scenario: a single
non-background class-3 cell at (0,5,6), background logits elsewhere. -/
def predsC6 : VGrid := fun c k =>
  if c = ((0 : ℤ), (5 : ℤ), (6 : ℤ)) then (if k = 3 then 1 else 0)
  else (if k = 0 then 1 else 0)

/-- The all-background value grid over two channels: argmax 0 at every
cell, with no ties. -/
def bgGrid : VGrid := fun _ k => if k = 0 then 1 else 0

/-- A 12×12 target grid with a single foreground cell (0,5,5) of class 1
over two channels; also used as its own perfect prediction. -/
def fgGrid : VGrid := fun c k =>
  if c = ((0 : ℤ), (5 : ℤ), (5 : ℤ)) then (if k = 1 then 1 else 0)
  else (if k = 0 then 1 else 0)

/-- Two annotations with distinct classes 1 and 2 landing on the same cell
(0,0,0) of a 1×1×1 grid. -/
def annsC1 : List Ann := [⟨0, 1, 0, 0⟩, ⟨0, 2, 0, 0⟩]

/-- Two annotations with distinct classes 1 and 3 landing on the same cell
(0,0,0) of a 1×1×2 grid; the later one has class 3. -/
def annsC3 : List Ann := [⟨0, 1, 0, 0⟩, ⟨0, 3, 0, 0⟩]

/-- A single in-range annotation (batch 0, class 2, fractions 0). -/
def annsW : List Ann := [⟨0, 2, 0, 0⟩]

/-- The all-zero class-index grid. -/
def zeroGrid : Grid ℕ := fun _ => 0

/-! Argmax and softmax lemmas. -/

/-- Folding the first-maximum scan over two value families whose strict
comparisons agree yields the same index. -/
theorem argmaxIdx_congr {α β : Type} [LinearOrder α] [LinearOrder β]
    (C : ℕ) (u : ℕ → α) (v : ℕ → β)
    (h : ∀ i j, u i < u j ↔ v i < v j) : argmaxIdx C u = argmaxIdx C v := by
  unfold argmaxIdx
  suffices H : ∀ (l : List ℕ) (a : ℕ),
      l.foldl (fun best i => if u best < u i then i else best) a =
      l.foldl (fun best i => if v best < v i then i else best) a from H _ 0
  intro l
  induction l with
  | nil => intro a; rfl
  | cons hd tl ih =>
      intro a
      simp only [List.foldl_cons]
      by_cases hc : v a < v hd
      · rw [if_pos ((h a hd).mpr hc), if_pos hc, ih]
      · rw [if_neg (fun hu => hc ((h a hd).mp hu)), if_neg hc, ih]

/-- The argmax index stays inside the channel range. -/
theorem argmaxIdx_lt {α : Type} [LinearOrder α] (C : ℕ) (hC : 0 < C)
    (v : ℕ → α) : argmaxIdx C v < C := by
  unfold argmaxIdx
  have H : ∀ (l : List ℕ) (a : ℕ), (∀ i ∈ l, i < C) → a < C →
      l.foldl (fun best i => if v best < v i then i else best) a < C := by
    intro l
    induction l with
    | nil => intro a _ ha; exact ha
    | cons hd tl ih =>
        intro a hl ha
        simp only [List.foldl_cons]
        by_cases hc : v a < v hd
        · rw [if_pos hc]; exact ih _ (fun i hi => hl i (List.mem_cons_of_mem _ hi))
            (hl hd (List.mem_cons_self _ _))
        · rw [if_neg hc]; exact ih _ (fun i hi => hl i (List.mem_cons_of_mem _ hi)) ha
  exact H _ 0 (fun i hi => List.mem_range.mp hi) hC

/-- Softmax preserves per-cell argmax: the normalization divides the
strictly monotone exponential by one positive constant. -/
theorem argmaxIdx_softmax (C : ℕ) (v : ℕ → ℝ) :
    argmaxIdx C (softmax C v) = argmaxIdx C v := by
  cases C with
  | zero => rfl
  | succ n =>
      apply argmaxIdx_congr
      intro i j
      have hS : 0 < ∑ k in Finset.range (n + 1), Real.exp (v k) :=
        Finset.sum_pos (fun k _ => Real.exp_pos (v k)) ⟨0, Finset.mem_range.mpr n.succ_pos⟩
      unfold softmax
      rw [div_lt_div_iff_of_pos_right hS, Real.exp_lt_exp]

/-- Casting rational channel values to the reals preserves argmax. -/
theorem argmaxIdx_ratCast (C : ℕ) (v : ℕ → ℚ) :
    argmaxIdx C (fun k => ((v k : ℚ) : ℝ)) = argmaxIdx C v := by
  apply argmaxIdx_congr
  intro i j
  exact Rat.cast_lt

/-- The prediction argmax computed through softmax coincides with the
argmax of the raw logits. -/
theorem predsMax_eq (C : ℕ) (preds : VGrid) :
    predsMax C preds = predsMaxQ C preds := by
  funext c
  unfold predsMax predsMaxQ
  rw [argmaxIdx_softmax, argmaxIdx_ratCast]

/-- The counts inside `get_pricsion_recall_f1` can be computed without the
softmax step. -/
theorem prfCounts_eq (C B H W : ℕ) (preds target : VGrid) :
    prfCounts C B H W preds target =
      countsOf C B H W (targetMaxQ C target) (predsMaxQ C preds) := by
  unfold prfCounts
  rw [predsMax_eq]

/-- `get_pricsion_recall_f1` equals its softmax-free refinement. -/
theorem prf1_eq_noSoftmax (C B H W : ℕ) (preds target : VGrid) :
    get_pricsion_recall_f1 C B H W preds target = prf1NoSoftmax C B H W preds target := by
  unfold get_pricsion_recall_f1 prf1NoSoftmax
  rw [prfCounts_eq]

/-- C9: the per-cell argmax taken after the softmax over the attribute axis
equals the per-cell argmax of the raw logits, so `get_pricsion_recall_f1`
returns the same (P, R, F1) triple whether or not the softmax
normalization step is applied. -/
theorem softmax_argmax_refinement (C B H W : ℕ) (preds target : VGrid) :
    (∀ v : ℕ → ℝ, argmaxIdx C (softmax C v) = argmaxIdx C v) ∧
    get_pricsion_recall_f1 C B H W preds target = prf1NoSoftmax C B H W preds target := by
  constructor
  · intro v
    exact argmaxIdx_softmax C v
  · unfold get_pricsion_recall_f1 prf1NoSoftmax
    unfold prfCounts
    rw [predsMax_eq]

/-! Confusion-matrix structure of the metric computation. -/

/-- C5: `get_pricsion_recall_f1` derives its counts from the confusion
matrix of the matched grids as tn = confusion[0,0], tp = trace - tn,
fn = strict-lower-triangle sum, fp = strict-upper-triangle sum, returns
(0,0,0) whenever tp+fp = 0 or tp+fn = 0, and otherwise P = tp/(tp+fp),
R = tp/(tp+fn), F1 = 2PR/(P+R) (0 when P+R = 0); every division is
guarded, so no division-by-zero failure can occur. -/
theorem prf1_confusion_structure (C B H W : ℕ) (preds target : VGrid) :
    get_pricsion_recall_f1 C B H W preds target =
      (let mp := matchPass B H W (targetMaxQ C target) (predsMax C preds)
       let conf := fun i j => confusion B H W mp.1 mp.2 i j
       let tn := conf 0 0
       let tp := (∑ i in Finset.range C, conf i i) - tn
       let fn := ∑ i in Finset.range C, ∑ j in Finset.range C, if j < i then conf i j else 0
       let fp := ∑ i in Finset.range C, ∑ j in Finset.range C, if i < j then conf i j else 0
       if tp + fp = 0 ∨ tp + fn = 0 then ((0 : ℚ), (0 : ℚ), (0 : ℚ))
       else
         let p : ℚ := (tp : ℚ) / ((tp : ℚ) + (fp : ℚ))
         let r : ℚ := (tp : ℚ) / ((tp : ℚ) + (fn : ℚ))
         (p, r, if p + r = 0 then 0 else 2 * (p * r) / (p + r))) := rfl

/-! The tolerant-matching scenario of the spec. -/

/-- C6: with a single true object cell (0,5,5) of class 3 and a single
predicted class-3 cell at the neighboring site (0,5,6), the metric counts
one true positive; the unmatched original cell leaves one false negative
but there is no false positive, so the pair is not counted as a
false-negative-plus-false-positive pair. -/
theorem tolerant_match_true_positive :
    1 ≤ (prfCounts 4 1 7 7 predsC6 targetC6).tp ∧
    ¬(1 ≤ (prfCounts 4 1 7 7 predsC6 targetC6).fn ∧
      1 ≤ (prfCounts 4 1 7 7 predsC6 targetC6).fp) ∧
    prfCounts 4 1 7 7 predsC6 targetC6 = ⟨47, 1, 1, 0⟩ := by
  have h : prfCounts 4 1 7 7 predsC6 targetC6 = ⟨47, 1, 1, 0⟩ := by
    rw [prfCounts_eq]
    decide
  rw [h]
  refine ⟨le_refl 1, ?_, rfl⟩
  rintro ⟨-, h2⟩
  exact absurd h2 (by decide)

/-! Behaviour of the matching pass when predictions already agree with the
target. -/

/-- When both grids are the same grid `t`, one matching step never changes
the state: a firing write stores the value the cell already holds. -/
theorem matchStep_self (pidx : List Idx3) (t : Grid ℕ) (ti po : Idx3) :
    matchStep pidx (t, t) ti po = (t, t) := by
  unfold matchStep
  by_cases h1 : skipSite (ti + po)
  · simp [h1]
  · simp only [h1, Bool.false_eq_true, if_false]
    by_cases h2 : siteInIndex (ti + po) pidx ∧ t (ti + po) = t ti
    · rw [if_pos h2]
      obtain ⟨-, h3⟩ := h2
      have hupd : updateG t (ti + po) (t ti) = t := by
        funext c
        unfold updateG
        by_cases hc : c = ti + po
        · rw [if_pos hc, hc, h3]
        · rw [if_neg hc]
      rw [hupd]
    · rw [if_neg h2]

/-- Folding matching steps over any cell list leaves an agreeing state
unchanged. -/
theorem foldl_matchStep_self (pidx : List Idx3) (t : Grid ℕ) (l : List Idx3) :
    l.foldl (fun st ti => posit_offset.foldl (fun st' po => matchStep pidx st' ti po) st)
      (t, t) = (t, t) := by
  have hinner : ∀ (offs : List Idx3) (ti : Idx3),
      offs.foldl (fun st' po => matchStep pidx st' ti po) (t, t) = (t, t) := by
    intro offs ti
    induction offs with
    | nil => rfl
    | cons hd tl ih => rw [List.foldl_cons, matchStep_self]; exact ih
  induction l with
  | nil => rfl
  | cons hd tl ih => rw [List.foldl_cons, hinner]; exact ih

/-- The whole tolerant-matching pass is the identity when the predicted
class grid equals the target class grid. -/
theorem matchPass_self (B H W : ℕ) (t : Grid ℕ) : matchPass B H W t t = (t, t) := by
  unfold matchPass
  exact foldl_matchStep_self (whereVals B H W t) t (whereVals B H W t)

/-- Off-diagonal confusion entries vanish when the two grids agree. -/
theorem confusion_self_ne (B H W : ℕ) (t : Grid ℕ) (i j : ℕ) (h : i ≠ j) :
    confusion B H W t t i j = 0 := by
  unfold confusion
  rw [List.countP_eq_zero]
  intro c _
  simp only [Bool.and_eq_true, decide_eq_true_eq, not_and]
  intro h1 h2
  exact h (h1.symm.trans h2)

/-- Diagonal confusion entries of agreeing grids count the cells of each
class. -/
theorem confusion_self_diag (B H W : ℕ) (t : Grid ℕ) (i : ℕ) :
    confusion B H W t t i i = (cellsRC B H W).countP (fun c => decide (t c = i)) := by
  unfold confusion
  congr 1
  funext c
  rw [Bool.and_self]

/-- Summing the per-class cell counts over all classes counts every cell,
as long as every cell's class is in range. -/
theorem sum_countP_classes (C : ℕ) (t : Grid ℕ) (l : List Idx3)
    (h : ∀ c ∈ l, t c < C) :
    ∑ i in Finset.range C, l.countP (fun c => decide (t c = i)) = l.length := by
  induction l with
  | nil => simp
  | cons hd tl ih =>
      have hhd := h hd (List.mem_cons_self _ _)
      have htl : ∀ c ∈ tl, t c < C := fun c hc => h c (List.mem_cons_of_mem _ hc)
      calc ∑ i in Finset.range C, (hd :: tl).countP (fun c => decide (t c = i))
          = ∑ i in Finset.range C,
              (tl.countP (fun c => decide (t c = i)) + if t hd = i then 1 else 0) := by
            refine Finset.sum_congr rfl fun i _ => ?_
            rw [List.countP_cons]
            simp
        _ = (∑ i in Finset.range C, tl.countP (fun c => decide (t c = i))) +
              ∑ i in Finset.range C, (if t hd = i then 1 else 0) := Finset.sum_add_distrib
        _ = tl.length + 1 := by
            rw [ih htl, Finset.sum_ite_eq, if_pos (Finset.mem_range.mpr hhd)]
        _ = (hd :: tl).length := by rw [List.length_cons]

/-- Counts of the metric when predictions agree with the target: tn counts
the background cells, tp the foreground cells, and there are no false
negatives or false positives. -/
theorem countsOf_self (C B H W : ℕ) (t : Grid ℕ)
    (hlt : ∀ c : Idx3, t c < C) :
    countsOf C B H W t t =
      ⟨(cellsRC B H W).countP (fun c => decide (t c = 0)),
       (cellsRC B H W).length - (cellsRC B H W).countP (fun c => decide (t c = 0)),
       0, 0⟩ := by
  unfold countsOf
  rw [matchPass_self]
  have hzero : ∀ i j : ℕ, i ≠ j → confusion B H W t t i j = 0 :=
    fun i j => confusion_self_ne B H W t i j
  have hfn : (∑ i in Finset.range C, ∑ j in Finset.range C,
      if j < i then confusion B H W t t i j else 0) = 0 := by
    refine Finset.sum_eq_zero fun i _ => Finset.sum_eq_zero fun j _ => ?_
    by_cases hij : j < i
    · rw [if_pos hij, hzero i j (Nat.ne_of_gt hij)]
    · rw [if_neg hij]
  have hfp : (∑ i in Finset.range C, ∑ j in Finset.range C,
      if i < j then confusion B H W t t i j else 0) = 0 := by
    refine Finset.sum_eq_zero fun i _ => Finset.sum_eq_zero fun j _ => ?_
    by_cases hij : i < j
    · rw [if_pos hij, hzero i j (Nat.ne_of_lt hij)]
    · rw [if_neg hij]
  simp only [hfn, hfp, confusion_self_diag]
  rw [sum_countP_classes C t _ (fun c _ => hlt c)]

/-- C7 counterexample: the all-background target with its own (tie-free)
perfect prediction satisfies the perfect-prediction hypothesis, yet the
metric returns (0,0,0) — the zero-denominator guard fires because there
are no foreground cells — so perfect argmax agreement alone does not give
P = R = F1 = 1. -/
theorem perfect_prediction_not_always_one :
    (∀ c : Idx3, argmaxIdx 2 (bgGrid c) = argmaxIdx 2 (bgGrid c)) ∧
    (∀ c : Idx3, bgGrid c 0 ≠ bgGrid c 1) ∧
    get_pricsion_recall_f1 2 1 1 1 bgGrid bgGrid = (0, 0, 0) ∧
    get_pricsion_recall_f1 2 1 1 1 bgGrid bgGrid ≠ (1, 1, 1) := by
  have h : get_pricsion_recall_f1 2 1 1 1 bgGrid bgGrid = (0, 0, 0) := by
    rw [prf1_eq_noSoftmax]
    decide
  refine ⟨fun c => rfl, fun c => by norm_num [bgGrid], h, ?_⟩
  rw [h]
  decide

/-- C7 amended: on the 12×12 grid geometry the hard-coded bounds guard is
built for, a prediction map whose per-cell argmax equals the target grid's
argmax yields P = R = F1 = 1, provided the target has at least one
foreground cell. -/
theorem prf1_perfect_prediction_amended (C B : ℕ) (hC : 0 < C)
    (preds target : VGrid)
    (hperf : ∀ c : Idx3, argmaxIdx C (preds c) = argmaxIdx C (target c))
    (hfg : ∃ c ∈ cellsRC B 12 12, targetMaxQ C target c ≠ 0) :
    get_pricsion_recall_f1 C B 12 12 preds target = (1, 1, 1) := by
  have hlt : ∀ c : Idx3, targetMaxQ C target c < C := fun c => argmaxIdx_lt C hC _
  have hpm : predsMax C preds = targetMaxQ C target := by
    rw [predsMax_eq]
    funext c
    exact hperf c
  unfold get_pricsion_recall_f1 prfCounts
  rw [hpm, countsOf_self C B 12 12 (targetMaxQ C target) hlt]
  set t := targetMaxQ C target with ht
  set n := (cellsRC B 12 12).length with hn
  set z := (cellsRC B 12 12).countP (fun c => decide (t c = 0)) with hz
  have hzn : z ≤ n := List.countP_le_length _
  have hne : z ≠ n := by
    intro he
    obtain ⟨c₀, hc₀, hc0ne⟩ := hfg
    have hall := List.countP_eq_length.mp he c₀ hc₀
    rw [decide_eq_true_eq] at hall
    exact hc0ne hall
  have htp : 0 < n - z := Nat.sub_pos_of_lt (lt_of_le_of_ne hzn hne)
  have htp' : n - z ≠ 0 := Nat.pos_iff_ne_zero.mp htp
  have hq : ((n - z : ℕ) : ℚ) ≠ 0 := Nat.cast_ne_zero.mpr htp'
  unfold prf1OfCounts
  rw [if_neg (by simp [htp'])]
  simp only [Nat.cast_zero, add_zero]
  rw [div_self hq]
  norm_num

/-- Witness: a 12×12 target with one class-1 cell, predicted by itself, has
a foreground cell and yields the perfect metric triple. -/
theorem prf1_perfect_prediction_witness :
    0 < 2 ∧ (∃ c ∈ cellsRC 1 12 12, targetMaxQ 2 fgGrid c ≠ 0) ∧
    get_pricsion_recall_f1 2 1 12 12 fgGrid fgGrid = (1, 1, 1) :=
  ⟨by decide, ⟨((0 : ℤ), (5 : ℤ), (5 : ℤ)), by decide, by decide⟩,
   prf1_perfect_prediction_amended 2 1 (by decide) fgGrid fgGrid (fun _ => rfl)
     ⟨((0 : ℤ), (5 : ℤ), (5 : ℤ)), by decide, by decide⟩⟩

/-! Boundary behaviour of the matching pass. -/

/-- C8: when a neighbor offset produces a site with any negative
coordinate, the guard fires and the matching step leaves the state
untouched — the site is skipped, with no read, write, wrap-around, or
clamping. -/
theorem negative_sites_skipped (pidx : List Idx3) (st : Grid ℕ × Grid ℕ)
    (ti po : Idx3) (_hpo : po ∈ posit_offset)
    (hneg : (ti + po).1 < 0 ∨ (ti + po).2.1 < 0 ∨ (ti + po).2.2 < 0) :
    skipSite (ti + po) = true ∧ matchStep pidx st ti po = st := by
  have hskip : skipSite (ti + po) = true := by
    unfold skipSite
    simp only [Bool.or_eq_true, decide_eq_true_eq]
    tauto
  refine ⟨hskip, ?_⟩
  simp [matchStep, hskip]

/-- Witness: the true cell (0,0,0) with the first neighbor offset (0,-1,0)
produces the negative site (0,-1,0), which is skipped. -/
theorem negative_sites_skipped_witness :
    ((((0 : ℤ), (0 : ℤ), (0 : ℤ)) + ((0 : ℤ), (-1 : ℤ), (0 : ℤ))).2.1 < 0) ∧
    skipSite (((0 : ℤ), (0 : ℤ), (0 : ℤ)) + ((0 : ℤ), (-1 : ℤ), (0 : ℤ))) = true ∧
    matchStep [] (zeroGrid, zeroGrid) ((0 : ℤ), (0 : ℤ), (0 : ℤ))
      ((0 : ℤ), (-1 : ℤ), (0 : ℤ)) = (zeroGrid, zeroGrid) := by
  refine ⟨by decide, ?_⟩
  have h := negative_sites_skipped [] (zeroGrid, zeroGrid)
    ((0 : ℤ), (0 : ℤ), (0 : ℤ)) ((0 : ℤ), (-1 : ℤ), (0 : ℤ))
    (by decide) (Or.inr (Or.inl (by decide)))
  exact h

/-- C2 evidence: the loop's guard is the hard-coded test
`any(site < 0) or any(site > 11)`, not a bounds check against the actual
grid shape.  On a 13×13 grid the in-bounds site (0,12,12) is skipped, and
on a 1×8×8 grid the out-of-bounds site (0,8,0) is not skipped (so the
subsequent tensor reads index outside the grid). -/
theorem skip_guard_is_not_bounds_check :
    skipSite ((0 : ℤ), (12 : ℤ), (12 : ℤ)) = true ∧
    inBoundsSpec 13 13 13 ((0 : ℤ), (12 : ℤ), (12 : ℤ)) = true ∧
    skipSite ((0 : ℤ), (8 : ℤ), (0 : ℤ)) = false ∧
    inBoundsSpec 1 8 8 ((0 : ℤ), (8 : ℤ), (0 : ℤ)) = false := by
  decide

/-! Characterization of the target builder. -/

/-- An index already in range is unchanged by PyTorch index
normalization. -/
theorem torchIdx_of_range (n : ℕ) (i : ℤ) (h0 : 0 ≤ i) (h1 : i < (n : ℤ)) :
    torchIdx n i = some i := by
  unfold torchIdx
  rw [if_pos ⟨h0, h1⟩]

/-- For a fraction in [0,1) and a positive size, the assigned coordinate
int(q·n) lies in [0, n). -/
theorem truncQ_frac_range (q : ℚ) (n : ℕ) (h0 : 0 ≤ q) (h1 : q < 1) (hn : 0 < n) :
    0 ≤ truncQ (q * (n : ℚ)) ∧ truncQ (q * (n : ℚ)) < (n : ℤ) := by
  have hq : 0 ≤ q * (n : ℚ) := mul_nonneg h0 (by exact_mod_cast Nat.zero_le n)
  have htr : truncQ (q * (n : ℚ)) = ⌊q * (n : ℚ)⌋ := by
    unfold truncQ
    rw [if_pos hq]
  refine ⟨htr ▸ Int.floor_nonneg.mpr hq, ?_⟩
  rw [htr, Int.floor_lt]
  have hnq : (0 : ℚ) < (n : ℚ) := by exact_mod_cast hn
  calc q * (n : ℚ) < 1 * (n : ℚ) := mul_lt_mul_of_pos_right h1 hnq
    _ = ((n : ℤ) : ℚ) := by push_cast; ring

/-- One `build_target` loop iteration on an in-range annotation: the write
at the assigned cell, stated in closed form. -/
theorem applyAnn_of_range (B H W C : ℕ) (g : VGrid) (a : Ann)
    (hb : 0 ≤ a.b ∧ a.b < (B : ℤ))
    (hcls : 1 ≤ a.cls ∧ a.cls < (C : ℤ))
    (hx : 0 ≤ a.x ∧ a.x < 1) (hy : 0 ≤ a.y ∧ a.y < 1)
    (hH : 0 < H) (hW : 0 < W) :
    applyAnn B H W C g a = some (fun (c : Idx3) (k : ℕ) =>
      if c = cellOf H W a then
        (if (k : ℤ) = a.cls then 1 else if k = 0 then 0 else g c k)
      else g c k) := by
  obtain ⟨hy0, hy1⟩ := truncQ_frac_range a.y H hy.1 hy.2 hH
  obtain ⟨hx0, hx1⟩ := truncQ_frac_range a.x W hx.1 hx.2 hW
  unfold applyAnn
  rw [torchIdx_of_range B a.b hb.1 hb.2, torchIdx_of_range H _ hy0 hy1,
      torchIdx_of_range W _ hx0 hx1,
      torchIdx_of_range C a.cls (le_trans zero_le_one hcls.1) hcls.2]
  rfl

/-- Splitting `hasCls` over a cons cell. -/
theorem hasCls_cons (H W : ℕ) (a : Ann) (rest : List Ann) (c : Idx3) (k : ℕ) :
    hasCls H W (a :: rest) c k ↔
      (cellOf H W a = c ∧ a.cls = (k : ℤ)) ∨ hasCls H W rest c k := by
  unfold hasCls
  simp [List.mem_cons, or_and_right, exists_or]

/-- Splitting `hitsCell` over a cons cell. -/
theorem hitsCell_cons (H W : ℕ) (a : Ann) (rest : List Ann) (c : Idx3) :
    hitsCell H W (a :: rest) c ↔ cellOf H W a = c ∨ hitsCell H W rest c := by
  unfold hitsCell
  simp [List.mem_cons, or_and_right, exists_or]

/-- Folding the annotation loop from any starting grid yields, at each cell
and channel: 1 where some processed annotation wrote that class, 0 on the
background channel of any written cell, and the starting grid's value
elsewhere. -/
theorem foldlM_applyAnn_char (B H W C : ℕ) (anns : List Ann)
    (hb : ∀ a ∈ anns, 0 ≤ a.b ∧ a.b < (B : ℤ))
    (hcls : ∀ a ∈ anns, 1 ≤ a.cls ∧ a.cls < (C : ℤ))
    (hx : ∀ a ∈ anns, 0 ≤ a.x ∧ a.x < 1)
    (hy : ∀ a ∈ anns, 0 ≤ a.y ∧ a.y < 1)
    (hH : 0 < H) (hW : 0 < W) :
    ∀ g0 : VGrid, List.foldlM (applyAnn B H W C) g0 anns = some (fun c k =>
      if hasCls H W anns c k then 1
      else if k = 0 ∧ hitsCell H W anns c then 0
      else g0 c k) := by
  induction anns with
  | nil =>
      intro g0
      refine congrArg some (funext fun c => funext fun k => ?_)
      simp [hasCls, hitsCell]
  | cons a rest ih =>
      intro g0
      have hmem : a ∈ a :: rest := List.mem_cons_self a rest
      rw [List.foldlM_cons,
          applyAnn_of_range B H W C g0 a (hb a hmem) (hcls a hmem) (hx a hmem)
            (hy a hmem) hH hW]
      have hbr : ∀ a' ∈ rest, 0 ≤ a'.b ∧ a'.b < (B : ℤ) :=
        fun a' ha' => hb a' (List.mem_cons_of_mem _ ha')
      have hclsr : ∀ a' ∈ rest, 1 ≤ a'.cls ∧ a'.cls < (C : ℤ) :=
        fun a' ha' => hcls a' (List.mem_cons_of_mem _ ha')
      have hxr : ∀ a' ∈ rest, 0 ≤ a'.x ∧ a'.x < 1 :=
        fun a' ha' => hx a' (List.mem_cons_of_mem _ ha')
      have hyr : ∀ a' ∈ rest, 0 ≤ a'.y ∧ a'.y < 1 :=
        fun a' ha' => hy a' (List.mem_cons_of_mem _ ha')
      have hstep := ih hbr hclsr hxr hyr
      simp only [Option.bind_eq_bind, Option.some_bind]
      rw [hstep]
      refine congrArg some (funext fun c => funext fun k => ?_)
      have hclsa := (hcls a hmem).1
      by_cases h1 : hasCls H W rest c k
      · rw [if_pos h1, if_pos ((hasCls_cons H W a rest c k).mpr (Or.inr h1))]
      · rw [if_neg h1]
        by_cases h2 : k = 0 ∧ hitsCell H W rest c
        · rw [if_pos h2]
          have hnc : ¬ hasCls H W (a :: rest) c k := by
            rw [hasCls_cons]
            rintro (⟨-, hcl⟩ | hr)
            · rw [h2.1] at hcl
              omega
            · exact h1 hr
          rw [if_neg hnc,
              if_pos ⟨h2.1, (hitsCell_cons H W a rest c).mpr (Or.inr h2.2)⟩]
        · rw [if_neg h2]
          by_cases hcell : c = cellOf H W a
          · by_cases hk : (k : ℤ) = a.cls
            · rw [if_pos hcell, if_pos hk,
                  if_pos ((hasCls_cons H W a rest c k).mpr (Or.inl ⟨hcell.symm, hk.symm⟩))]
            · by_cases hk0 : k = 0
              · rw [if_pos hcell, if_neg hk, if_pos hk0]
                have hnc : ¬ hasCls H W (a :: rest) c k := by
                  rw [hasCls_cons]
                  rintro (⟨-, hcl⟩ | hr)
                  · exact hk hcl.symm
                  · exact h1 hr
                rw [if_neg hnc,
                    if_pos ⟨hk0, (hitsCell_cons H W a rest c).mpr (Or.inl hcell.symm)⟩]
              · rw [if_pos hcell, if_neg hk, if_neg hk0]
                have hnc : ¬ hasCls H W (a :: rest) c k := by
                  rw [hasCls_cons]
                  rintro (⟨-, hcl⟩ | hr)
                  · exact hk hcl.symm
                  · exact h1 hr
                rw [if_neg hnc, if_neg (fun hc => hk0 hc.1)]
          · rw [if_neg hcell]
            have hnc : ¬ hasCls H W (a :: rest) c k := by
              rw [hasCls_cons]
              rintro (⟨hce, -⟩ | hr)
              · exact hcell hce.symm
              · exact h1 hr
            have hnh : ¬ (k = 0 ∧ hitsCell H W (a :: rest) c) := by
              rintro ⟨hk0, hh⟩
              rcases (hitsCell_cons H W a rest c).mp hh with hce | hr
              · exact hcell hce.symm
              · exact h2 ⟨hk0, hr⟩
            rw [if_neg hnc, if_neg hnh]

/-- `build_target` on in-range annotations returns exactly the closed-form
grid `targetChar`. -/
theorem build_target_char (B H W C : ℕ) (anns : List Ann)
    (hb : ∀ a ∈ anns, 0 ≤ a.b ∧ a.b < (B : ℤ))
    (hcls : ∀ a ∈ anns, 1 ≤ a.cls ∧ a.cls < (C : ℤ))
    (hx : ∀ a ∈ anns, 0 ≤ a.x ∧ a.x < 1)
    (hy : ∀ a ∈ anns, 0 ≤ a.y ∧ a.y < 1)
    (hH : 0 < H) (hW : 0 < W) :
    build_target B H W C anns = some (targetChar H W anns) := by
  unfold build_target
  rw [foldlM_applyAnn_char B H W C anns hb hcls hx hy hH hW initTarget]
  refine congrArg some (funext fun c => funext fun k => ?_)
  unfold targetChar initTarget
  by_cases h1 : hasCls H W anns c k
  · rw [if_pos h1, if_pos h1]
  · rw [if_neg h1, if_neg h1]
    by_cases hk : k = 0
    · subst hk
      by_cases hh : hitsCell H W anns c
      · rw [if_pos ⟨rfl, hh⟩, if_pos rfl, if_pos hh]
      · rw [if_neg (fun hc => hh hc.2), if_pos rfl, if_pos rfl, if_neg hh]
    · rw [if_neg (fun hc => hk hc.1), if_neg hk, if_neg hk]

/-- C1 counterexample: two annotations of classes 1 and 2 on the same cell
of a 1×1×1 grid (channels C = 3) leave BOTH class channels at 1, so the
returned grid is not one-hot at that cell. -/
theorem build_target_not_onehot_on_clash :
    ∃ g, build_target 1 1 1 3 annsC1 = some g ∧
      g ((0 : ℤ), (0 : ℤ), (0 : ℤ)) 1 = 1 ∧ g ((0 : ℤ), (0 : ℤ), (0 : ℤ)) 2 = 1 ∧
      ¬ isOneHot 3 (g ((0 : ℤ), (0 : ℤ), (0 : ℤ))) := by
  have h : build_target 1 1 1 3 annsC1 = some (targetChar 1 1 annsC1) :=
    build_target_char 1 1 1 3 annsC1 (by decide) (by decide) (by decide) (by decide)
      (by decide) (by decide)
  have hc1 : cellOf 1 1 (⟨0, 1, 0, 0⟩ : Ann) = ((0 : ℤ), (0 : ℤ), (0 : ℤ)) := by
    simp [cellOf, truncQ]
  have hc2 : cellOf 1 1 (⟨0, 2, 0, 0⟩ : Ann) = ((0 : ℤ), (0 : ℤ), (0 : ℤ)) := by
    simp [cellOf, truncQ]
  have h1 : targetChar 1 1 annsC1 ((0 : ℤ), (0 : ℤ), (0 : ℤ)) 1 = 1 := by
    unfold targetChar
    rw [if_pos ⟨⟨0, 1, 0, 0⟩, by simp [annsC1], hc1, by norm_num⟩]
  have h2 : targetChar 1 1 annsC1 ((0 : ℤ), (0 : ℤ), (0 : ℤ)) 2 = 1 := by
    unfold targetChar
    rw [if_pos ⟨⟨0, 2, 0, 0⟩, by simp [annsC1], hc2, by norm_num⟩]
  refine ⟨targetChar 1 1 annsC1, h, h1, h2, ?_⟩
  rintro ⟨k, hk, -, hzero⟩
  have hk3 := Finset.mem_range.mp hk
  interval_cases k
  · have := hzero 1 (by decide) (by decide)
    rw [h1] at this
    norm_num at this
  · have := hzero 2 (by decide) (by decide)
    rw [h2] at this
    norm_num at this
  · have := hzero 1 (by decide) (by decide)
    rw [h1] at this
    norm_num at this

/-- C1 amended: every grid returned by `build_target` is one-hot at every
cell, provided any two annotations mapping to the same cell carry the same
class id (as well as the claim's batch and class ranges, and fractions in
[0,1)); without that proviso the clashing cell keeps several channels at 1. -/
theorem build_target_onehot_of_consistent (B H W C : ℕ) (anns : List Ann)
    (hC : 0 < C)
    (hb : ∀ a ∈ anns, 0 ≤ a.b ∧ a.b < (B : ℤ))
    (hcls : ∀ a ∈ anns, 1 ≤ a.cls ∧ a.cls < (C : ℤ))
    (hx : ∀ a ∈ anns, 0 ≤ a.x ∧ a.x < 1)
    (hy : ∀ a ∈ anns, 0 ≤ a.y ∧ a.y < 1)
    (hH : 0 < H) (hW : 0 < W)
    (hsame : ∀ a ∈ anns, ∀ a' ∈ anns, cellOf H W a = cellOf H W a' → a.cls = a'.cls) :
    ∃ g, build_target B H W C anns = some g ∧ ∀ c : Idx3, isOneHot C (g c) := by
  refine ⟨targetChar H W anns, build_target_char B H W C anns hb hcls hx hy hH hW,
    fun c => ?_⟩
  by_cases hh : hitsCell H W anns c
  · obtain ⟨a, ha, hac⟩ := hh
    have hclsa := hcls a ha
    refine ⟨a.cls.toNat, Finset.mem_range.mpr (by omega), ?_, ?_⟩
    · unfold targetChar
      rw [if_pos ⟨a, ha, hac, by omega⟩]
    · intro j hj hjne
      have hnot : ¬ hasCls H W anns c j := by
        rintro ⟨a', ha', hac', hcl'⟩
        have hsm := hsame a' ha' a ha (hac'.trans hac.symm)
        exact hjne (by omega)
      unfold targetChar
      rw [if_neg hnot]
      by_cases hj0 : j = 0
      · rw [if_pos hj0, if_pos ⟨a, ha, hac⟩]
      · rw [if_neg hj0]
  · refine ⟨0, Finset.mem_range.mpr hC, ?_, ?_⟩
    · have hnot : ¬ hasCls H W anns c 0 := fun ⟨a, ha, hac, _⟩ => hh ⟨a, ha, hac⟩
      unfold targetChar
      rw [if_neg hnot, if_pos rfl, if_neg hh]
    · intro j hj hjne
      have hnot : ¬ hasCls H W anns c j := fun ⟨a, ha, hac, _⟩ => hh ⟨a, ha, hac⟩
      unfold targetChar
      rw [if_neg hnot, if_neg hjne]

/-- Witness: a single centred class-2 annotation on a 1×1 grid (channels
C = 3) satisfies every hypothesis and produces an everywhere one-hot grid. -/
theorem build_target_onehot_witness :
    (0 < 3 ∧ (∀ a ∈ annsW, 0 ≤ a.b ∧ a.b < (1 : ℤ)) ∧
     (∀ a ∈ annsW, 1 ≤ a.cls ∧ a.cls < (3 : ℤ)) ∧
     (∀ a ∈ annsW, 0 ≤ a.x ∧ a.x < 1) ∧ (∀ a ∈ annsW, 0 ≤ a.y ∧ a.y < 1) ∧
     (∀ a ∈ annsW, ∀ a' ∈ annsW, cellOf 1 1 a = cellOf 1 1 a' → a.cls = a'.cls)) ∧
    ∃ g, build_target 1 1 1 3 annsW = some g ∧ ∀ c : Idx3, isOneHot 3 (g c) := by
  have hsame : ∀ a ∈ annsW, ∀ a' ∈ annsW, cellOf 1 1 a = cellOf 1 1 a' → a.cls = a'.cls := by
    intro a ha a' ha' _
    rw [annsW, List.mem_singleton] at ha ha'
    rw [ha, ha']
  exact ⟨⟨by decide, by decide, by decide, by decide, by decide, hsame⟩,
    build_target_onehot_of_consistent 1 1 1 3 annsW (by decide) (by decide) (by decide)
      (by decide) (by decide) (by decide) (by decide) hsame⟩

/-- C3 counterexample: annotations of classes 1 then 3 on the same cell of
a 1×1×2 grid (channels C = 4).  The claim predicts the cell is one-hot at
the last class 3, with every other channel 0; in fact channel 1 also stays
at 1 — the earlier class is never cleared. -/
theorem build_target_no_last_write_wins :
    ∃ g, build_target 1 1 2 4 annsC3 = some g ∧
      g ((0 : ℤ), (0 : ℤ), (0 : ℤ)) 3 = 1 ∧ g ((0 : ℤ), (0 : ℤ), (0 : ℤ)) 1 = 1 ∧
      ¬ (g ((0 : ℤ), (0 : ℤ), (0 : ℤ)) 3 = 1 ∧
         ∀ j ∈ Finset.range 4, j ≠ 3 → g ((0 : ℤ), (0 : ℤ), (0 : ℤ)) j = 0) := by
  have h : build_target 1 1 2 4 annsC3 = some (targetChar 1 2 annsC3) :=
    build_target_char 1 1 2 4 annsC3 (by decide) (by decide) (by decide) (by decide)
      (by decide) (by decide)
  have hc1 : cellOf 1 2 (⟨0, 1, 0, 0⟩ : Ann) = ((0 : ℤ), (0 : ℤ), (0 : ℤ)) := by
    simp [cellOf, truncQ]
  have hc3 : cellOf 1 2 (⟨0, 3, 0, 0⟩ : Ann) = ((0 : ℤ), (0 : ℤ), (0 : ℤ)) := by
    simp [cellOf, truncQ]
  have h1 : targetChar 1 2 annsC3 ((0 : ℤ), (0 : ℤ), (0 : ℤ)) 1 = 1 := by
    unfold targetChar
    rw [if_pos ⟨⟨0, 1, 0, 0⟩, by simp [annsC3], hc1, by norm_num⟩]
  have h3 : targetChar 1 2 annsC3 ((0 : ℤ), (0 : ℤ), (0 : ℤ)) 3 = 1 := by
    unfold targetChar
    rw [if_pos ⟨⟨0, 3, 0, 0⟩, by simp [annsC3], hc3, by norm_num⟩]
  refine ⟨targetChar 1 2 annsC3, h, h3, h1, ?_⟩
  rintro ⟨-, hzero⟩
  have := hzero 1 (by decide) (by decide)
  rw [h1] at this
  norm_num at this

/-- C3 amended: on fractions in [0,1) (with in-range batch and class ids),
`build_target` returns a grid that is background one-hot at every cell no
annotation hits; at each annotated cell the background channel is cleared
and channel k is 1 exactly when SOME annotation mapping to that cell (not
only the last) has class k, all other channels being 0. -/
theorem build_target_characterization (B H W C : ℕ) (anns : List Ann)
    (hb : ∀ a ∈ anns, 0 ≤ a.b ∧ a.b < (B : ℤ))
    (hcls : ∀ a ∈ anns, 1 ≤ a.cls ∧ a.cls < (C : ℤ))
    (hx : ∀ a ∈ anns, 0 ≤ a.x ∧ a.x < 1)
    (hy : ∀ a ∈ anns, 0 ≤ a.y ∧ a.y < 1)
    (hH : 0 < H) (hW : 0 < W) :
    ∃ g, build_target B H W C anns = some g ∧
      (∀ c : Idx3, ¬ hitsCell H W anns c → ∀ k, g c k = (if k = 0 then 1 else 0)) ∧
      (∀ c : Idx3, hitsCell H W anns c → g c 0 = 0 ∧
        ∀ k, 1 ≤ k → (g c k = 1 ↔ hasCls H W anns c k) ∧
          (¬ hasCls H W anns c k → g c k = 0)) := by
  refine ⟨targetChar H W anns, build_target_char B H W C anns hb hcls hx hy hH hW,
    fun c hc k => ?_, fun c hc => ⟨?_, fun k hk => ⟨?_, fun hnot => ?_⟩⟩⟩
  · have hnot : ¬ hasCls H W anns c k := fun ⟨a, ha, hac, _⟩ => hc ⟨a, ha, hac⟩
    unfold targetChar
    rw [if_neg hnot]
    by_cases hk : k = 0
    · rw [if_pos hk, if_neg hc, if_pos hk]
    · rw [if_neg hk, if_neg hk]
  · have hnot : ¬ hasCls H W anns c 0 := by
      rintro ⟨a, ha, -, hcl⟩
      have := (hcls a ha).1
      omega
    unfold targetChar
    rw [if_neg hnot, if_pos rfl, if_pos hc]
  · unfold targetChar
    by_cases hhc : hasCls H W anns c k
    · rw [if_pos hhc]
      simp [hhc]
    · rw [if_neg hhc, if_neg (by omega : ¬ k = 0)]
      exact iff_of_false (by norm_num) hhc
  · unfold targetChar
    rw [if_neg hnot, if_neg (by omega : ¬ k = 0)]

/-- Witness: the single centred class-2 annotation instantiates the full
characterization. -/
theorem build_target_characterization_witness :
    ((∀ a ∈ annsW, 0 ≤ a.b ∧ a.b < (1 : ℤ)) ∧
     (∀ a ∈ annsW, 1 ≤ a.cls ∧ a.cls < (3 : ℤ)) ∧
     (∀ a ∈ annsW, 0 ≤ a.x ∧ a.x < 1) ∧ (∀ a ∈ annsW, 0 ≤ a.y ∧ a.y < 1)) ∧
    ∃ g, build_target 1 1 1 3 annsW = some g ∧
      (∀ c : Idx3, ¬ hitsCell 1 1 annsW c → ∀ k, g c k = (if k = 0 then 1 else 0)) ∧
      (∀ c : Idx3, hitsCell 1 1 annsW c → g c 0 = 0 ∧
        ∀ k, 1 ≤ k → (g c k = 1 ↔ hasCls 1 1 annsW c k) ∧
          (¬ hasCls 1 1 annsW c k → g c k = 0)) :=
  ⟨⟨by decide, by decide, by decide, by decide⟩,
   build_target_characterization 1 1 1 3 annsW (by decide) (by decide) (by decide)
     (by decide) (by decide) (by decide)⟩

/-! Structure of the weighted loss. -/

/-- C4: whenever the target grid builds successfully, `lossFunction`
returns a result whose total is the mean over all B·H·W·C elements of
foreground_term + background_term, where the background term is the
unreduced element-wise BCE-with-logits (no positive-class weight) times a
mask that is 1 on channel 0 and 0 elsewhere, and the foreground term is
the BCE-with-logits with positive-class weight `cls_weight` times the
complementary mask. -/
theorem lossFunction_total_structure (cw : ℚ) (C B H W : ℕ) (preds : VGrid)
    (targets : List Ann) (data : VGrid)
    (h : build_target B H W C targets = some data) :
    ∃ r, lossFunction cw C B H W preds targets = some r ∧
      r.loss = tensorMean B H W C (fun c k =>
        bceWithLogits (cw : ℝ) ((preds c k : ℚ) : ℝ) ((data c k : ℚ) : ℝ) *
          (1 - (if k = 0 then (1 : ℝ) else 0)) +
        bceWithLogits 1 ((preds c k : ℚ) : ℝ) ((data c k : ℚ) : ℝ) *
          (if k = 0 then (1 : ℝ) else 0)) := by
  unfold lossFunction
  rw [h]
  exact ⟨_, rfl, rfl⟩

/-- Witness: with no annotations on a 1×1 grid with two channels, the
target grid builds to the all-background grid and the loss total takes the
stated mean form. -/
theorem lossFunction_total_structure_witness :
    build_target 1 1 1 2 ([] : List Ann) = some initTarget ∧
    ∃ r, lossFunction 1 2 1 1 1 bgGrid [] = some r ∧
      r.loss = tensorMean 1 1 1 2 (fun c k =>
        bceWithLogits ((1 : ℚ) : ℝ) ((bgGrid c k : ℚ) : ℝ) ((initTarget c k : ℚ) : ℝ) *
          (1 - (if k = 0 then (1 : ℝ) else 0)) +
        bceWithLogits 1 ((bgGrid c k : ℚ) : ℝ) ((initTarget c k : ℚ) : ℝ) *
          (if k = 0 then (1 : ℝ) else 0)) :=
  ⟨rfl, lossFunction_total_structure 1 2 1 1 1 bgGrid [] initTarget rfl⟩

/-! Constructor behaviour. -/

/-- C10: the constructor fails with an attribute error exactly when
`loss_weight` is truthy (a non-empty sequence): the per-class override
writes into `self.weight_cls`, which no earlier assignment defines, so the
failure is raised before the loss modules are created; with `None` or an
empty sequence construction succeeds. -/
theorem init_attribute_error_iff (lw : Option (List ℤ)) :
    ((∃ e, fomoHeadInit lw = Except.error e) ↔ pyTruthy lw = true) ∧
    (pyTruthy lw = true →
      fomoHeadInit lw = Except.error (PyErr.attributeErr "weight_cls")) ∧
    (pyTruthy lw = false → ∃ env, fomoHeadInit lw = Except.ok env) := by
  have hmem : "weight_cls" ∉ initAttrs := by
    simp [initAttrs]
  rcases lw with - | l
  · refine ⟨⟨?_, ?_⟩, ?_, ?_⟩
    · rintro ⟨e, he⟩
      simp [fomoHeadInit] at he
    · intro ht
      simp [pyTruthy] at ht
    · intro ht
      simp [pyTruthy] at ht
    · intro _
      exact ⟨fomoInitTail initAttrs, rfl⟩
  · rcases l with - | ⟨w, ws⟩
    · refine ⟨⟨?_, ?_⟩, ?_, ?_⟩
      · rintro ⟨e, he⟩
        simp [fomoHeadInit] at he
      · intro ht
        simp [pyTruthy] at ht
      · intro ht
        simp [pyTruthy] at ht
      · intro _
        exact ⟨fomoInitTail initAttrs, rfl⟩
    · have herr : fomoHeadInit (some (w :: ws)) =
          Except.error (PyErr.attributeErr "weight_cls") := by
        unfold fomoHeadInit
        rw [if_neg hmem]
      refine ⟨⟨fun _ => rfl, fun _ => ⟨_, herr⟩⟩, fun _ => herr, ?_⟩
      intro hf
      simp [pyTruthy] at hf

/-- Witness: a one-element `loss_weight` is truthy and construction fails
with the `weight_cls` attribute error. -/
theorem init_attribute_error_witness :
    pyTruthy (some [2]) = true ∧
    fomoHeadInit (some [2]) = Except.error (PyErr.attributeErr "weight_cls") :=
  ⟨rfl, (init_attribute_error_iff (some [2])).2.1 rfl⟩

end Fomo
